import Mathlib

/-!
Verification of the Avalanche CLI MCP server (src/avalanche-cli-mcp-server.ts).

The development embeds the server shallowly:
the seven tool handlers become pure Lean functions over an explicit
external-world record (platform, home directory, shell environment,
command execution results, file contents, directories), returning the
response text, the updated world and a trace of the external effects
(command executions, directory creations, file reads/appends/unlinks)
performed in order.  Response payloads built in the source with
JSON.stringify(payload, null, 2) are built here from an explicit
JSON value type and a pretty printer mirroring that call; a verified
parser establishes which response texts are well formed JSON.
-/

/- ## Characters and small string utilities -/

/-- The apostrophe character, used inside several literal message strings. -/
def apos : String := ⟨[Char.ofNat 39]⟩

/-- Opening curly brace character. -/
def lbrace : Char := Char.ofNat 123

/-- Closing curly brace character. -/
def rbrace : Char := Char.ofNat 125

/-- JSON insignificant whitespace. -/
def isWs (c : Char) : Bool :=
  (c == ' ') || ((c == '\t') || ((c == '\n') || (c == '\r')))

/-- A run of space characters, as produced by the indent argument of
JSON.stringify. -/
def spaces (n : Nat) : List Char := List.replicate n ' '

/-- Drop leading whitespace. -/
def skipWs : List Char → List Char
  | [] => []
  | c :: r => if isWs c then skipWs r else c :: r

/-- Lowercase hexadecimal digit for a value below 16. -/
def hexDig (n : Nat) : Char :=
  if n = 0 then '0' else if n = 1 then '1' else if n = 2 then '2'
  else if n = 3 then '3' else if n = 4 then '4' else if n = 5 then '5'
  else if n = 6 then '6' else if n = 7 then '7' else if n = 8 then '8'
  else if n = 9 then '9' else if n = 10 then 'a' else if n = 11 then 'b'
  else if n = 12 then 'c' else if n = 13 then 'd' else if n = 14 then 'e'
  else 'f'

/-- Value of a hexadecimal digit character. -/
def hexVal (c : Char) : Option Nat :=
  if 48 ≤ c.toNat ∧ c.toNat ≤ 57 then some (c.toNat - 48)
  else if 97 ≤ c.toNat ∧ c.toNat ≤ 102 then some (c.toNat - 87)
  else if 65 ≤ c.toNat ∧ c.toNat ≤ 70 then some (c.toNat - 55)
  else none

/-- JSON string escaping of one character, as performed by JSON.stringify:
the two-character escapes for quote, backslash, backspace, form feed,
newline, carriage return and tab, a lowercase unicode escape for the
remaining control characters, and every other character unchanged. -/
def escChar (c : Char) : List Char :=
  if c = '"' then ['\\', '"']
  else if c = '\\' then ['\\', '\\']
  else if c = '\n' then ['\\', 'n']
  else if c = '\r' then ['\\', 'r']
  else if c = '\t' then ['\\', 't']
  else if c = Char.ofNat 8 then ['\\', 'b']
  else if c = Char.ofNat 12 then ['\\', 'f']
  else if c.toNat < 32 then
    ['\\', 'u', '0', '0', hexDig (c.toNat / 16), hexDig (c.toNat % 16)]
  else [c]

/-- JSON string escaping of a character list. -/
def escapeStr : List Char → List Char
  | [] => []
  | c :: cs => escChar c ++ escapeStr cs

/-- Prefix test on character lists (helper for the substring test below). -/
def hasPre : List Char → List Char → Bool
  | [], _ => true
  | _ :: _, [] => false
  | p :: ps, c :: cs => p == c && hasPre ps cs

/-- Substring test on character lists. -/
def hasSub (pat : List Char) : List Char → Bool
  | [] => pat.isEmpty
  | c :: cs => hasPre pat (c :: cs) || hasSub pat cs

/-- The JavaScript String.includes test: does s contain pat as a substring. -/
def includes (s pat : String) : Bool := hasSub pat.data s.data

/- ## JSON values

The response payloads of the server contain only strings, booleans,
arrays and objects, so the value type has exactly those constructors.
Arrays and objects are separate mutual inductives (rather than nested
List fields) to keep recursion and induction elementary. -/

mutual

inductive Json where
  | str (s : String)
  | bool (b : Bool)
  | arr (items : JsonList)
  | obj (items : JsonObj)

inductive JsonList where
  | nil
  | cons (hd : Json) (tl : JsonList)

inductive JsonObj where
  | nil
  | cons (key : String) (val : Json) (tl : JsonObj)

end

/-- Build a JsonList from a Lean list. -/
def JsonList.ofList : List Json → JsonList
  | [] => .nil
  | x :: xs => .cons x (ofList xs)

/-- Build a JsonObj from a Lean association list. -/
def JsonObj.ofList : List (String × Json) → JsonObj
  | [] => .nil
  | (k, v) :: kvs => .cons k v (ofList kvs)

/-- Array value from a Lean list. -/
def Json.mkArr (l : List Json) : Json := .arr (.ofList l)

/-- Object value from a Lean association list, in source order. -/
def Json.mkObj (l : List (String × Json)) : Json := .obj (.ofList l)

/-- First field of an object with the given key. -/
def JsonObj.lookup : JsonObj → String → Option Json
  | .nil, _ => none
  | .cons k v kvs, key => if k = key then some v else kvs.lookup key

/-- Field lookup on a JSON value (none on non-objects). -/
def Json.field : Json → String → Option Json
  | .obj kvs, k => kvs.lookup k
  | _, _ => none

/- ## Pretty printer

renderJ i j is the exact character sequence JSON.stringify(j, null, 2)
produces when j occurs at indentation depth i. -/

mutual

def renderJ : Nat → Json → List Char
  | _, .str s => '"' :: (escapeStr s.data ++ ['"'])
  | _, .bool true => ['t', 'r', 'u', 'e']
  | _, .bool false => ['f', 'a', 'l', 's', 'e']
  | _, .arr .nil => ['[', ']']
  | i, .arr (.cons x xs) =>
    '[' :: '\n' :: (renderItems (i + 2) (.cons x xs) ++ '\n' :: (spaces i ++ [']']))
  | _, .obj .nil => [lbrace, rbrace]
  | i, .obj (.cons k v kvs) =>
    lbrace :: '\n' :: (renderFields (i + 2) (.cons k v kvs) ++ '\n' :: (spaces i ++ [rbrace]))

def renderItems : Nat → JsonList → List Char
  | _, .nil => []
  | i, .cons x .nil => spaces i ++ renderJ i x
  | i, .cons x (.cons y ys) =>
    spaces i ++ renderJ i x ++ (',' :: '\n' :: renderItems i (.cons y ys))

def renderFields : Nat → JsonObj → List Char
  | _, .nil => []
  | i, .cons k v .nil =>
    spaces i ++ ('"' :: (escapeStr k.data ++ ('"' :: ':' :: ' ' :: renderJ i v)))
  | i, .cons k v (.cons k2 v2 kvs) =>
    spaces i ++ ('"' :: (escapeStr k.data ++ ('"' :: ':' :: ' ' :: renderJ i v)))
      ++ (',' :: '\n' :: renderFields i (.cons k2 v2 kvs))

end

/-- The text JSON.stringify(j, null, 2) yields. -/
def jsonStringify (j : Json) : String := ⟨renderJ 0 j⟩

/- ## Parser

A standard fueled recursive-descent JSON reader, used to state that the
response texts are well formed JSON deserializing back to their payloads. -/

/-- Parse the body of a string literal after the opening quote, returning
the decoded characters and the input after the closing quote. -/
def parseStrBody : List Char → Option (List Char × List Char)
  | [] => none
  | c :: rest =>
    if c = '"' then some ([], rest)
    else if c = '\\' then
      match rest with
      | [] => none
      | e :: rest2 =>
        if e = '"' then (parseStrBody rest2).map fun p => ('"' :: p.1, p.2)
        else if e = '\\' then (parseStrBody rest2).map fun p => ('\\' :: p.1, p.2)
        else if e = '/' then (parseStrBody rest2).map fun p => ('/' :: p.1, p.2)
        else if e = 'n' then (parseStrBody rest2).map fun p => ('\n' :: p.1, p.2)
        else if e = 'r' then (parseStrBody rest2).map fun p => ('\r' :: p.1, p.2)
        else if e = 't' then (parseStrBody rest2).map fun p => ('\t' :: p.1, p.2)
        else if e = 'b' then (parseStrBody rest2).map fun p => (Char.ofNat 8 :: p.1, p.2)
        else if e = 'f' then (parseStrBody rest2).map fun p => (Char.ofNat 12 :: p.1, p.2)
        else if e = 'u' then
          match rest2 with
          | h1 :: h2 :: h3 :: h4 :: rest3 =>
            match hexVal h1, hexVal h2, hexVal h3, hexVal h4 with
            | some v1, some v2, some v3, some v4 =>
              (parseStrBody rest3).map fun p =>
                (Char.ofNat (((v1 * 16 + v2) * 16 + v3) * 16 + v4) :: p.1, p.2)
            | _, _, _, _ => none
          | _ => none
        else none
    else (parseStrBody rest).map fun p => (c :: p.1, p.2)

mutual

def parseVal : Nat → List Char → Option (Json × List Char)
  | 0, _ => none
  | fuel + 1, l =>
    match skipWs l with
    | [] => none
    | c :: r =>
      if c = '"' then (parseStrBody r).map fun p => (Json.str ⟨p.1⟩, p.2)
      else if c = 't' then
        if r.take 3 = ['r', 'u', 'e'] then some (Json.bool true, r.drop 3) else none
      else if c = 'f' then
        if r.take 4 = ['a', 'l', 's', 'e'] then some (Json.bool false, r.drop 4) else none
      else if c = '[' then
        match skipWs r with
        | [] => none
        | d :: r2 =>
          if d = ']' then some (Json.arr .nil, r2)
          else (parseArrItems fuel r).map fun p => (Json.arr p.1, p.2)
      else if c = lbrace then
        match skipWs r with
        | [] => none
        | d :: r2 =>
          if d = rbrace then some (Json.obj .nil, r2)
          else (parseObjItems fuel r).map fun p => (Json.obj p.1, p.2)
      else none

def parseArrItems : Nat → List Char → Option (JsonList × List Char)
  | 0, _ => none
  | fuel + 1, l =>
    (parseVal fuel l).bind fun p =>
      match skipWs p.2 with
      | [] => none
      | d :: r2 =>
        if d = ',' then
          (parseArrItems fuel r2).map fun q => (JsonList.cons p.1 q.1, q.2)
        else if d = ']' then some (JsonList.cons p.1 .nil, r2)
        else none

def parseObjItems : Nat → List Char → Option (JsonObj × List Char)
  | 0, _ => none
  | fuel + 1, l =>
    match skipWs l with
    | [] => none
    | c :: r =>
      if c = '"' then
        (parseStrBody r).bind fun kp =>
          match skipWs kp.2 with
          | [] => none
          | d :: r2 =>
            if d = ':' then
              (parseVal fuel r2).bind fun vp =>
                match skipWs vp.2 with
                | [] => none
                | e :: r3 =>
                  if e = ',' then
                    (parseObjItems fuel r3).map fun q => (JsonObj.cons ⟨kp.1⟩ vp.1 q.1, q.2)
                  else if e = rbrace then some (JsonObj.cons ⟨kp.1⟩ vp.1 .nil, r3)
                  else none
            else none
      else none

end

/-- Top level JSON reader: a string is well formed JSON (for our purposes)
when a value can be read from it consuming the whole input. -/
def parseJson (s : String) : Option Json :=
  match parseVal (s.data.length + 1) s.data with
  | some p => if p.2 = [] then some p.1 else none
  | none => none

/- ## Size measures used as fuel bounds -/

mutual

def sizeJ : Json → Nat
  | .str _ => 1
  | .bool _ => 1
  | .arr xs => 1 + sizeL xs
  | .obj kvs => 1 + sizeO kvs

def sizeL : JsonList → Nat
  | .nil => 0
  | .cons x xs => 1 + sizeJ x + sizeL xs

def sizeO : JsonObj → Nat
  | .nil => 0
  | .cons _ v kvs => 1 + sizeJ v + sizeO kvs

end

theorem sizeJ_pos (j : Json) : 1 ≤ sizeJ j := by
  cases j <;> simp only [sizeJ] <;> omega

/- ## Whitespace facts -/

theorem skipWs_cons_of_not {c : Char} (l : List Char) (h : isWs c = false) :
    skipWs (c :: l) = c :: l := by
  simp [skipWs, h]

theorem skipWs_cons_of_ws {c : Char} (l : List Char) (h : isWs c = true) :
    skipWs (c :: l) = skipWs l := by
  simp [skipWs, h]

theorem skipWs_spaces (n : Nat) (l : List Char) : skipWs (spaces n ++ l) = skipWs l := by
  induction n with
  | zero => simp [spaces]
  | succ m ih =>
    simp only [spaces, List.replicate_succ, List.cons_append]
    rw [skipWs_cons_of_ws _ (by decide)]
    exact ih

theorem parseVal_ws (fuel : Nat) {c : Char} (l : List Char) (h : isWs c = true) :
    parseVal fuel (c :: l) = parseVal fuel l := by
  cases fuel with
  | zero => rfl
  | succ n => simp only [parseVal, skipWs_cons_of_ws _ h]

theorem parseVal_spaces (fuel n : Nat) (l : List Char) :
    parseVal fuel (spaces n ++ l) = parseVal fuel l := by
  induction n with
  | zero => simp [spaces]
  | succ m ih =>
    simp only [spaces, List.replicate_succ, List.cons_append]
    rw [parseVal_ws fuel _ (by decide)]
    exact ih

theorem parseArrItems_ws (fuel : Nat) {c : Char} (l : List Char) (h : isWs c = true) :
    parseArrItems fuel (c :: l) = parseArrItems fuel l := by
  cases fuel with
  | zero => rfl
  | succ n => simp only [parseArrItems, parseVal_ws n _ h]

theorem parseObjItems_ws (fuel : Nat) {c : Char} (l : List Char) (h : isWs c = true) :
    parseObjItems fuel (c :: l) = parseObjItems fuel l := by
  cases fuel with
  | zero => rfl
  | succ n => simp only [parseObjItems, skipWs_cons_of_ws _ h]

theorem parseObjItems_spaces (fuel n : Nat) (l : List Char) :
    parseObjItems fuel (spaces n ++ l) = parseObjItems fuel l := by
  induction n with
  | zero => simp [spaces]
  | succ m ih =>
    simp only [spaces, List.replicate_succ, List.cons_append]
    rw [parseObjItems_ws fuel _ (by decide)]
    exact ih

/-- The first character a rendered value starts with: never whitespace and
never a closing bracket, brace or comma. -/
theorem renderJ_head (i : Nat) (j : Json) :
    ∃ c t, renderJ i j = c :: t ∧ (isWs c = false ∧ ¬ c = ']' ∧ ¬ c = rbrace) := by
  cases j with
  | str s => exact ⟨'"', _, rfl, by decide⟩
  | bool b => cases b with
    | true => exact ⟨'t', _, rfl, by decide⟩
    | false => exact ⟨'f', _, rfl, by decide⟩
  | arr xs => cases xs with
    | nil => exact ⟨'[', _, rfl, by decide⟩
    | cons x xs => exact ⟨'[', _, rfl, by decide⟩
  | obj kvs => cases kvs with
    | nil => exact ⟨lbrace, _, rfl, by decide⟩
    | cons k v kvs => exact ⟨lbrace, _, rfl, by decide⟩

/- ## String body round trip -/

theorem hexVal_hexDig : ∀ n, n < 16 → hexVal (hexDig n) = some n := by decide

theorem psb_quote (rest : List Char) : parseStrBody ('"' :: rest) = some ([], rest) := by
  rw [parseStrBody.eq_def]; simp

theorem psb_esc_quote (rest : List Char) :
    parseStrBody ('\\' :: '"' :: rest) =
      (parseStrBody rest).map fun p => ('"' :: p.1, p.2) := by
  rw [parseStrBody.eq_def]; simp

theorem psb_esc_back (rest : List Char) :
    parseStrBody ('\\' :: '\\' :: rest) =
      (parseStrBody rest).map fun p => ('\\' :: p.1, p.2) := by
  rw [parseStrBody.eq_def]; simp

theorem psb_esc_n (rest : List Char) :
    parseStrBody ('\\' :: 'n' :: rest) =
      (parseStrBody rest).map fun p => ('\n' :: p.1, p.2) := by
  rw [parseStrBody.eq_def]; simp

theorem psb_esc_r (rest : List Char) :
    parseStrBody ('\\' :: 'r' :: rest) =
      (parseStrBody rest).map fun p => ('\r' :: p.1, p.2) := by
  rw [parseStrBody.eq_def]; simp

theorem psb_esc_t (rest : List Char) :
    parseStrBody ('\\' :: 't' :: rest) =
      (parseStrBody rest).map fun p => ('\t' :: p.1, p.2) := by
  rw [parseStrBody.eq_def]; simp

theorem psb_esc_b (rest : List Char) :
    parseStrBody ('\\' :: 'b' :: rest) =
      (parseStrBody rest).map fun p => (Char.ofNat 8 :: p.1, p.2) := by
  rw [parseStrBody.eq_def]; simp

theorem psb_esc_f (rest : List Char) :
    parseStrBody ('\\' :: 'f' :: rest) =
      (parseStrBody rest).map fun p => (Char.ofNat 12 :: p.1, p.2) := by
  rw [parseStrBody.eq_def]; simp

theorem psb_esc_u {h1 h2 h3 h4 : Char} {v1 v2 v3 v4 : Nat}
    (e1 : hexVal h1 = some v1) (e2 : hexVal h2 = some v2)
    (e3 : hexVal h3 = some v3) (e4 : hexVal h4 = some v4) (rest : List Char) :
    parseStrBody ('\\' :: 'u' :: h1 :: h2 :: h3 :: h4 :: rest) =
      (parseStrBody rest).map fun p =>
        (Char.ofNat (((v1 * 16 + v2) * 16 + v3) * 16 + v4) :: p.1, p.2) := by
  rw [parseStrBody.eq_def]; simp [e1, e2, e3, e4]

theorem psb_other {c : Char} (rest : List Char) (hq : ¬ c = '"') (hb : ¬ c = '\\') :
    parseStrBody (c :: rest) = (parseStrBody rest).map fun p => (c :: p.1, p.2) := by
  rw [parseStrBody.eq_def]; simp [hq, hb]

theorem parseStrBody_escape (cs : List Char) (rest : List Char) :
    parseStrBody (escapeStr cs ++ '"' :: rest) = some (cs, rest) := by
  induction cs with
  | nil => simpa [escapeStr] using psb_quote rest
  | cons c cs ih =>
    show parseStrBody ((escChar c ++ escapeStr cs) ++ '"' :: rest) = _
    rw [List.append_assoc]
    by_cases hc1 : c = '"'
    · subst hc1
      rw [show escChar '"' = ['\\', '"'] from by simp [escChar]]
      simp [psb_esc_quote, ih]
    · by_cases hc2 : c = '\\'
      · subst hc2
        rw [show escChar '\\' = ['\\', '\\'] from by simp [escChar]]
        simp [psb_esc_back, ih]
      · by_cases hc3 : c = '\n'
        · subst hc3
          rw [show escChar '\n' = ['\\', 'n'] from by simp [escChar]]
          simp [psb_esc_n, ih]
        · by_cases hc4 : c = '\r'
          · subst hc4
            rw [show escChar '\r' = ['\\', 'r'] from by simp [escChar]]
            simp [psb_esc_r, ih]
          · by_cases hc5 : c = '\t'
            · subst hc5
              rw [show escChar '\t' = ['\\', 't'] from by simp [escChar]]
              simp [psb_esc_t, ih]
            · by_cases hc6 : c = Char.ofNat 8
              · rw [show escChar c = ['\\', 'b'] from by
                  simp [escChar, hc1, hc2, hc3, hc4, hc5, hc6]]
                simp [psb_esc_b, ih, hc6]
              · by_cases hc7 : c = Char.ofNat 12
                · rw [show escChar c = ['\\', 'f'] from by
                    simp [escChar, hc1, hc2, hc3, hc4, hc5, hc6, hc7]]
                  simp [psb_esc_f, ih, hc7]
                · by_cases hc8 : c.toNat < 32
                  · rw [show escChar c =
                      ['\\', 'u', '0', '0', hexDig (c.toNat / 16), hexDig (c.toNat % 16)] from by
                        simp [escChar, hc1, hc2, hc3, hc4, hc5, hc6, hc7, hc8]]
                    have hd : c.toNat / 16 < 16 := by omega
                    have hm : c.toNat % 16 < 16 := Nat.mod_lt _ (by omega)
                    simp only [List.cons_append, List.nil_append]
                    rw [psb_esc_u (show hexVal '0' = some 0 from by decide)
                      (show hexVal '0' = some 0 from by decide)
                      (hexVal_hexDig _ hd) (hexVal_hexDig _ hm), ih]
                    have hv : c.toNat / 16 * 16 + c.toNat % 16 = c.toNat := by omega
                    simp [hv]
                  · rw [show escChar c = [c] from by
                      simp [escChar, hc1, hc2, hc3, hc4, hc5, hc6, hc7, hc8]]
                    simp only [List.cons_append, List.nil_append]
                    rw [psb_other _ hc1 hc2, ih]
                    rfl

/- ## Step lemmas for the value parser -/

theorem pv_quote (n : Nat) (r : List Char) :
    parseVal (n + 1) ('"' :: r) = (parseStrBody r).map fun p => (Json.str ⟨p.1⟩, p.2) := by
  simp only [parseVal]
  rw [skipWs_cons_of_not _ (by decide)]
  simp

theorem pv_true (n : Nat) (r : List Char) :
    parseVal (n + 1) ('t' :: 'r' :: 'u' :: 'e' :: r) = some (Json.bool true, r) := by
  simp only [parseVal]
  rw [skipWs_cons_of_not _ (by decide)]
  simp

theorem pv_false (n : Nat) (r : List Char) :
    parseVal (n + 1) ('f' :: 'a' :: 'l' :: 's' :: 'e' :: r) = some (Json.bool false, r) := by
  simp only [parseVal]
  rw [skipWs_cons_of_not _ (by decide)]
  simp

theorem skipWs_rbracket (r : List Char) : skipWs (']' :: r) = ']' :: r :=
  skipWs_cons_of_not _ (by decide)

theorem skipWs_rbrace (r : List Char) : skipWs (rbrace :: r) = rbrace :: r :=
  skipWs_cons_of_not _ (by decide)

theorem pv_arr_nil (n : Nat) (r : List Char) :
    parseVal (n + 1) ('[' :: ']' :: r) = some (Json.arr .nil, r) := by
  simp only [parseVal]
  rw [skipWs_cons_of_not _ (by decide)]
  simp [skipWs_rbracket]

theorem pv_arr_cons (n : Nat) {r : List Char} {c0 : Char} {t0 : List Char}
    (h : skipWs r = c0 :: t0) (hne : ¬ c0 = ']') :
    parseVal (n + 1) ('[' :: r) = (parseArrItems n r).map fun p => (Json.arr p.1, p.2) := by
  simp only [parseVal]
  rw [skipWs_cons_of_not _ (by decide)]
  simp [h, hne]

theorem pv_obj_nil (n : Nat) (r : List Char) :
    parseVal (n + 1) (lbrace :: rbrace :: r) = some (Json.obj .nil, r) := by
  simp only [parseVal]
  rw [skipWs_cons_of_not _ (by decide)]
  simp [skipWs_rbrace, show ¬ lbrace = '"' from by decide, show ¬ lbrace = 't' from by decide,
    show ¬ lbrace = 'f' from by decide, show ¬ lbrace = '[' from by decide]

theorem pv_obj_cons (n : Nat) {r : List Char} {c0 : Char} {t0 : List Char}
    (h : skipWs r = c0 :: t0) (hne : ¬ c0 = rbrace) :
    parseVal (n + 1) (lbrace :: r) = (parseObjItems n r).map fun p => (Json.obj p.1, p.2) := by
  simp only [parseVal]
  rw [skipWs_cons_of_not _ (by decide)]
  simp [h, hne, show ¬ lbrace = '"' from by decide, show ¬ lbrace = 't' from by decide,
    show ¬ lbrace = 'f' from by decide, show ¬ lbrace = '[' from by decide]

/-- A rendered (nonempty) item list starts, after whitespace, with a character
that is not a closing bracket or brace. -/
theorem skipWs_renderItems (i : Nat) (x : Json) (xs : JsonList) (tail : List Char) :
    ∃ c0 t0, skipWs (renderItems i (JsonList.cons x xs) ++ tail) = c0 :: t0 ∧
      isWs c0 = false ∧ ¬ c0 = ']' ∧ ¬ c0 = rbrace := by
  obtain ⟨c0, t0, hr, hws, hb, hbr⟩ := renderJ_head i x
  cases xs with
  | nil =>
    refine ⟨c0, t0 ++ tail, ?_, hws, hb, hbr⟩
    simp only [renderItems, List.append_assoc]
    rw [skipWs_spaces, hr, List.cons_append]
    exact skipWs_cons_of_not _ hws
  | cons y ys =>
    refine ⟨c0, t0 ++ ((',' :: '\n' :: renderItems i (.cons y ys)) ++ tail), ?_, hws, hb, hbr⟩
    simp only [renderItems, List.append_assoc]
    rw [skipWs_spaces, hr, List.cons_append]
    rw [skipWs_cons_of_not _ hws]

/-- A rendered (nonempty) field list starts, after whitespace, with the
opening quote of its first key. -/
theorem skipWs_quote (r : List Char) : skipWs ('"' :: r) = '"' :: r :=
  skipWs_cons_of_not _ (by decide)

theorem skipWs_renderFields (i : Nat) (k : String) (v : Json) (kvs : JsonObj)
    (tail : List Char) :
    ∃ t0, skipWs (renderFields i (JsonObj.cons k v kvs) ++ tail) = '"' :: t0 := by
  cases kvs with
  | nil =>
    simp only [renderFields, List.append_assoc, List.cons_append, skipWs_spaces, skipWs_quote]
    exact ⟨_, rfl⟩
  | cons k2 v2 kvs =>
    simp only [renderFields, List.append_assoc, List.cons_append, skipWs_spaces, skipWs_quote]
    exact ⟨_, rfl⟩

theorem pai_last (n : Nat) {l T r2 : List Char} {x : Json}
    (hv : parseVal n l = some (x, T)) (hs : skipWs T = ']' :: r2) :
    parseArrItems (n + 1) l = some (JsonList.cons x .nil, r2) := by
  simp [parseArrItems, hv, hs]

theorem pai_cons (n : Nat) {l T r2 : List Char} {x : Json}
    (hv : parseVal n l = some (x, T)) (hs : skipWs T = ',' :: r2) :
    parseArrItems (n + 1) l
      = (parseArrItems n r2).map fun q => (JsonList.cons x q.1, q.2) := by
  simp [parseArrItems, hv, hs]

theorem poi_fin (n : Nat) {l kT vT vR eT r3 kcs : List Char} {v : Json}
    (hl : skipWs l = '"' :: kT) (hk : parseStrBody kT = some (kcs, vT))
    (hc : skipWs vT = ':' :: vR) (hv : parseVal n vR = some (v, eT))
    (he : skipWs eT = rbrace :: r3) :
    parseObjItems (n + 1) l = some (JsonObj.cons ⟨kcs⟩ v .nil, r3) := by
  simp [parseObjItems, hl, hk, hc, hv, he, show ¬ rbrace = ',' from by decide]

theorem poi_more (n : Nat) {l kT vT vR eT r3 kcs : List Char} {v : Json}
    (hl : skipWs l = '"' :: kT) (hk : parseStrBody kT = some (kcs, vT))
    (hc : skipWs vT = ':' :: vR) (hv : parseVal n vR = some (v, eT))
    (he : skipWs eT = ',' :: r3) :
    parseObjItems (n + 1) l
      = (parseObjItems n r3).map fun q => (JsonObj.cons ⟨kcs⟩ v q.1, q.2) := by
  simp [parseObjItems, hl, hk, hc, hv, he]

/-- Adequacy of the reader on rendered output, by induction on the fuel:
with enough fuel, parsing a rendered value (followed by anything) returns
exactly that value, and likewise for rendered item and field lists followed
by their closing bracket or brace. -/
theorem parse_render : ∀ fuel,
    (∀ j i rest, sizeJ j ≤ fuel →
      parseVal fuel (renderJ i j ++ rest) = some (j, rest)) ∧
    (∀ x xs i i2 rest, sizeL (JsonList.cons x xs) ≤ fuel →
      parseArrItems fuel
          (renderItems i (JsonList.cons x xs) ++ '\n' :: (spaces i2 ++ ']' :: rest))
        = some (JsonList.cons x xs, rest)) ∧
    (∀ k v kvs i i2 rest, sizeO (JsonObj.cons k v kvs) ≤ fuel →
      parseObjItems fuel
          (renderFields i (JsonObj.cons k v kvs) ++ '\n' :: (spaces i2 ++ rbrace :: rest))
        = some (JsonObj.cons k v kvs, rest)) := by
  intro fuel
  induction fuel with
  | zero =>
    refine ⟨fun j i rest h => absurd h (by have := sizeJ_pos j; omega),
            fun x xs i i2 rest h => absurd h (by simp only [sizeL]; omega),
            fun k v kvs i i2 rest h => absurd h (by simp only [sizeO]; omega)⟩
  | succ n ih =>
    obtain ⟨ihP, ihQ, ihR⟩ := ih
    refine ⟨?_, ?_, ?_⟩
    · intro j i rest hsz
      cases j with
      | str s =>
        simp only [renderJ, List.cons_append, List.append_assoc, List.singleton_append]
        rw [pv_quote, parseStrBody_escape]
        rfl
      | bool b =>
        cases b with
        | false =>
          simp only [renderJ, List.cons_append, List.nil_append]
          exact pv_false n rest
        | true =>
          simp only [renderJ, List.cons_append, List.nil_append]
          exact pv_true n rest
      | arr xs =>
        cases xs with
        | nil =>
          simp only [renderJ, List.cons_append, List.nil_append]
          exact pv_arr_nil n rest
        | cons x xs =>
          simp only [renderJ, List.cons_append, List.append_assoc, List.singleton_append,
            List.nil_append]
          obtain ⟨c0, t0, hsk, hws, hb, hbr⟩ :=
            skipWs_renderItems (i + 2) x xs ('\n' :: (spaces i ++ ']' :: rest))
          rw [pv_arr_cons n (by rw [skipWs_cons_of_ws _ (by decide)]; exact hsk) hb]
          rw [parseArrItems_ws n _ (by decide)]
          rw [ihQ x xs (i + 2) i rest (by simp only [sizeJ] at hsz; omega)]
          rfl
      | obj kvs =>
        cases kvs with
        | nil =>
          simp only [renderJ, List.cons_append, List.nil_append]
          exact pv_obj_nil n rest
        | cons k v kvs =>
          simp only [renderJ, List.cons_append, List.append_assoc, List.singleton_append,
            List.nil_append]
          obtain ⟨t0, hsk⟩ :=
            skipWs_renderFields (i + 2) k v kvs ('\n' :: (spaces i ++ rbrace :: rest))
          rw [pv_obj_cons n (by rw [skipWs_cons_of_ws _ (by decide)]; exact hsk)
            (by decide)]
          rw [parseObjItems_ws n _ (by decide)]
          rw [ihR k v kvs (i + 2) i rest (by simp only [sizeJ] at hsz; omega)]
          rfl
    · intro x xs i i2 rest hsz
      cases xs with
      | nil =>
        have hv : parseVal n
            (renderItems i (JsonList.cons x JsonList.nil)
              ++ '\n' :: (spaces i2 ++ ']' :: rest))
            = some (x, '\n' :: (spaces i2 ++ ']' :: rest)) := by
          simp only [renderItems, List.append_assoc]
          rw [parseVal_spaces]
          exact ihP x i _ (by simp only [sizeL] at hsz; omega)
        have hs : skipWs ('\n' :: (spaces i2 ++ ']' :: rest)) = ']' :: rest := by
          rw [skipWs_cons_of_ws _ (by decide), skipWs_spaces]
          exact skipWs_rbracket _
        exact pai_last n hv hs
      | cons y ys =>
        have hv : parseVal n
            (renderItems i (JsonList.cons x (JsonList.cons y ys))
              ++ '\n' :: (spaces i2 ++ ']' :: rest))
            = some (x, ',' :: '\n' ::
                (renderItems i (JsonList.cons y ys)
                  ++ '\n' :: (spaces i2 ++ ']' :: rest))) := by
          simp only [renderItems, List.append_assoc, List.cons_append]
          rw [parseVal_spaces]
          exact ihP x i _ (by simp only [sizeL] at hsz; omega)
        have hs : skipWs (',' :: '\n' ::
            (renderItems i (JsonList.cons y ys) ++ '\n' :: (spaces i2 ++ ']' :: rest)))
            = ',' :: '\n' ::
                (renderItems i (JsonList.cons y ys)
                  ++ '\n' :: (spaces i2 ++ ']' :: rest)) :=
          skipWs_cons_of_not _ (by decide)
        rw [pai_cons n hv hs, parseArrItems_ws n _ (by decide),
          ihQ y ys i i2 rest (by simp only [sizeL] at hsz ⊢; omega)]
        rfl
    · intro k v kvs i i2 rest hsz
      cases kvs with
      | nil =>
        have hl : skipWs (renderFields i (JsonObj.cons k v JsonObj.nil)
            ++ '\n' :: (spaces i2 ++ rbrace :: rest))
            = '"' :: (escapeStr k.data ++ ('"' :: ':' :: ' ' ::
                (renderJ i v ++ '\n' :: (spaces i2 ++ rbrace :: rest)))) := by
          simp only [renderFields, List.append_assoc, List.cons_append]
          rw [skipWs_spaces]
          exact skipWs_quote _
        have hk : parseStrBody (escapeStr k.data ++ ('"' :: ':' :: ' ' ::
            (renderJ i v ++ '\n' :: (spaces i2 ++ rbrace :: rest))))
            = some (k.data, ':' :: ' ' ::
                (renderJ i v ++ '\n' :: (spaces i2 ++ rbrace :: rest))) :=
          parseStrBody_escape _ _
        have hc : skipWs (':' :: ' ' ::
            (renderJ i v ++ '\n' :: (spaces i2 ++ rbrace :: rest)))
            = ':' :: ' ' :: (renderJ i v ++ '\n' :: (spaces i2 ++ rbrace :: rest)) :=
          skipWs_cons_of_not _ (by decide)
        have hv : parseVal n
            (' ' :: (renderJ i v ++ '\n' :: (spaces i2 ++ rbrace :: rest)))
            = some (v, '\n' :: (spaces i2 ++ rbrace :: rest)) := by
          rw [parseVal_ws n _ (by decide)]
          exact ihP v i _ (by simp only [sizeO] at hsz; omega)
        have he : skipWs ('\n' :: (spaces i2 ++ rbrace :: rest)) = rbrace :: rest := by
          rw [skipWs_cons_of_ws _ (by decide), skipWs_spaces]
          exact skipWs_rbrace _
        exact poi_fin n hl hk hc hv he
      | cons k2 v2 kvs =>
        have hl : skipWs (renderFields i (JsonObj.cons k v (JsonObj.cons k2 v2 kvs))
            ++ '\n' :: (spaces i2 ++ rbrace :: rest))
            = '"' :: (escapeStr k.data ++ ('"' :: ':' :: ' ' ::
                (renderJ i v ++ ',' :: '\n' ::
                  (renderFields i (JsonObj.cons k2 v2 kvs)
                    ++ '\n' :: (spaces i2 ++ rbrace :: rest))))) := by
          simp only [renderFields, List.append_assoc, List.cons_append]
          rw [skipWs_spaces]
          exact skipWs_quote _
        have hk : parseStrBody (escapeStr k.data ++ ('"' :: ':' :: ' ' ::
            (renderJ i v ++ ',' :: '\n' ::
              (renderFields i (JsonObj.cons k2 v2 kvs)
                ++ '\n' :: (spaces i2 ++ rbrace :: rest)))))
            = some (k.data, ':' :: ' ' ::
                (renderJ i v ++ ',' :: '\n' ::
                  (renderFields i (JsonObj.cons k2 v2 kvs)
                    ++ '\n' :: (spaces i2 ++ rbrace :: rest)))) :=
          parseStrBody_escape _ _
        have hc : skipWs (':' :: ' ' ::
            (renderJ i v ++ ',' :: '\n' ::
              (renderFields i (JsonObj.cons k2 v2 kvs)
                ++ '\n' :: (spaces i2 ++ rbrace :: rest))))
            = ':' :: ' ' :: (renderJ i v ++ ',' :: '\n' ::
                (renderFields i (JsonObj.cons k2 v2 kvs)
                  ++ '\n' :: (spaces i2 ++ rbrace :: rest))) :=
          skipWs_cons_of_not _ (by decide)
        have hv : parseVal n (' ' :: (renderJ i v ++ ',' :: '\n' ::
            (renderFields i (JsonObj.cons k2 v2 kvs)
              ++ '\n' :: (spaces i2 ++ rbrace :: rest))))
            = some (v, ',' :: '\n' ::
                (renderFields i (JsonObj.cons k2 v2 kvs)
                  ++ '\n' :: (spaces i2 ++ rbrace :: rest))) := by
          rw [parseVal_ws n _ (by decide)]
          exact ihP v i _ (by simp only [sizeO] at hsz; omega)
        have he : skipWs (',' :: '\n' ::
            (renderFields i (JsonObj.cons k2 v2 kvs)
              ++ '\n' :: (spaces i2 ++ rbrace :: rest)))
            = ',' :: '\n' ::
                (renderFields i (JsonObj.cons k2 v2 kvs)
                  ++ '\n' :: (spaces i2 ++ rbrace :: rest)) :=
          skipWs_cons_of_not _ (by decide)
        rw [poi_more n hl hk hc hv he, parseObjItems_ws n _ (by decide),
          ihR k2 v2 kvs i i2 rest (by simp only [sizeO] at hsz ⊢; omega)]
        rfl

theorem spaces_len (n : Nat) : (spaces n).length = n := by simp [spaces]

/-- The fuel bound: a value never needs more fuel than the length of its
rendering (plus one), again by induction on an upper bound of the size. -/
theorem size_le_len : ∀ n,
    (∀ j, sizeJ j ≤ n → ∀ i, sizeJ j ≤ (renderJ i j).length) ∧
    (∀ x xs, sizeL (JsonList.cons x xs) ≤ n →
      ∀ i, sizeL (JsonList.cons x xs) ≤ (renderItems i (JsonList.cons x xs)).length + 1) ∧
    (∀ k v kvs, sizeO (JsonObj.cons k v kvs) ≤ n →
      ∀ i, sizeO (JsonObj.cons k v kvs) ≤ (renderFields i (JsonObj.cons k v kvs)).length + 1) := by
  intro n
  induction n with
  | zero =>
    exact ⟨fun j h => absurd h (by have := sizeJ_pos j; omega),
      fun x xs h => absurd h (by simp only [sizeL]; omega),
      fun k v kvs h => absurd h (by simp only [sizeO]; omega)⟩
  | succ n ih =>
    obtain ⟨ihP, ihQ, ihR⟩ := ih
    refine ⟨?_, ?_, ?_⟩
    · intro j hsz i
      cases j with
      | str s =>
        simp only [sizeJ, renderJ, List.length_cons, List.length_append]
        omega
      | bool b => cases b <;> simp [sizeJ, renderJ]
      | arr xs =>
        cases xs with
        | nil => simp [sizeJ, sizeL, renderJ]
        | cons x xs =>
          have h1 := ihQ x xs (by simp only [sizeJ] at hsz; omega) (i + 2)
          simp only [sizeJ, renderJ, List.length_cons, List.length_append,
            spaces_len] at h1 ⊢
          omega
      | obj kvs =>
        cases kvs with
        | nil => simp [sizeJ, sizeO, renderJ]
        | cons k v kvs =>
          have h1 := ihR k v kvs (by simp only [sizeJ] at hsz; omega) (i + 2)
          simp only [sizeJ, renderJ, List.length_cons, List.length_append,
            spaces_len] at h1 ⊢
          omega
    · intro x xs hsz i
      cases xs with
      | nil =>
        have h1 := ihP x (by simp only [sizeL] at hsz; omega) i
        simp only [sizeL, renderItems, List.length_append, spaces_len]
        omega
      | cons y ys =>
        have h1 := ihP x (by simp only [sizeL] at hsz; omega) i
        have h2 := ihQ y ys (by simp only [sizeL] at hsz ⊢; omega) i
        simp only [sizeL, renderItems, List.length_append, List.length_cons,
          spaces_len] at h2 ⊢
        omega
    · intro k v kvs hsz i
      cases kvs with
      | nil =>
        have h1 := ihP v (by simp only [sizeO] at hsz; omega) i
        simp only [sizeO, renderFields, List.length_append, List.length_cons, spaces_len]
        omega
      | cons k2 v2 kvs =>
        have h1 := ihP v (by simp only [sizeO] at hsz; omega) i
        have h2 := ihR k2 v2 kvs (by simp only [sizeO] at hsz ⊢; omega) i
        simp only [sizeO, renderFields, List.length_append, List.length_cons,
          spaces_len] at h2 ⊢
        omega

/-- Round trip: reading back the output of jsonStringify returns exactly the
serialized value. -/
theorem renderParse (j : Json) : parseJson (jsonStringify j) = some j := by
  have hfuel : sizeJ j ≤ (renderJ 0 j).length + 1 := by
    have := (size_le_len (sizeJ j)).1 j (le_refl _) 0
    omega
  have h := (parse_render ((renderJ 0 j).length + 1)).1 j 0 [] hfuel
  rw [List.append_nil] at h
  simp only [parseJson, jsonStringify]
  rw [h]
  simp

/- ## The external world and effects

The handlers in src/avalanche-cli-mcp-server.ts interact with the outside
world through child_process.exec, fs and os.  The embedding makes that
world explicit: command execution results, file contents and directory
existence are fields of a World record, queried or updated by the
handlers, and every external operation is also logged in an effect trace
in the order the source performs it.  External I/O failures other than
the ones the source branches on (a failing command, a missing file) are
not modelled. -/

/-- Result of running a shell command: captured stdout and stderr on
success, or a rejection carrying an error message. -/
inductive ExecResult where
  | ok (stdout stderr : String)
  | err (msg : String)
deriving DecidableEq

/-- The ambient environment of one handler invocation. -/
structure World where
  platform : String
  arch : String
  homeDir : String
  envShell : Option String
  exec : String → ExecResult
  files : String → Option String
  dirs : String → Bool

/-- One external operation, as logged in program order. -/
inductive Eff where
  | execCmd (cmd : String)
  | accessDir (p : String)
  | mkdir (p : String)
  | accessFile (p : String)
  | readFile (p : String)
  | appendFile (p : String) (s : String)
  | unlink (p : String)
deriving DecidableEq

/-- Replace the content entry of one file path. -/
def World.setFile (w : World) (p : String) (v : Option String) : World :=
  { w with files := fun q => if q = p then v else w.files q }

/-- Record a directory as existing. -/
def World.setDir (w : World) (p : String) : World :=
  { w with dirs := fun q => q == p || w.dirs q }

/-- Outcome of one handler invocation: the text content of the response,
the world afterwards, and the trace of external effects. -/
structure HOut where
  text : String
  world : World
  trace : List Eff

/- ## Handlers -/

/-- The fixed install command (lines 224 and 459 of the source). -/
def installCommand : String :=
  "curl -sSfL https://raw.githubusercontent.com/ava-labs/avalanche-cli/main/scripts/install.sh | sh -s"

/-- Payload of checkCompatibility (lines 165-186): compatible is
platform === linux || platform === darwin, with the matching message. -/
def compatPayload (platform arch : String) : Json :=
  Json.mkObj
    [("compatible", Json.bool (platform == "linux" || platform == "darwin")),
     ("platform", Json.str platform),
     ("architecture", Json.str arch),
     ("message", Json.str
       (if platform == "linux" || platform == "darwin" then
          "Your system is compatible with Avalanche CLI"
        else
          "Avalanche CLI currently supports Linux and macOS only. Windows is not supported."))]

/-- Handler check_compatibility: pure, reads platform and arch, never
touches the file system or runs commands. -/
def checkCompatibility (w : World) : HOut :=
  { text := jsonStringify (compatPayload w.platform w.arch), world := w, trace := [] }

/-- The plain-text short-circuit response of the install handler
(lines 200-207), returned when the tool is already on the PATH. -/
def alreadyInstalledText : String :=
  "Avalanche CLI is already installed. Use " ++ apos ++ "force: true" ++ apos
    ++ " to reinstall or use the update tool."

/-- Success payload of the install handler (lines 230-240). -/
def installSuccessPayload (out err : String) : Json :=
  Json.mkObj
    [("success", Json.bool true),
     ("message", Json.str "Avalanche CLI installed successfully"),
     ("stdout", Json.str out),
     ("stderr", Json.str err),
     ("next_steps", Json.mkArr
       [Json.str "Add ~/bin to your PATH if not already done",
        Json.str ("Run " ++ apos ++ "avalanche --version" ++ apos
          ++ " to verify installation")])]

/-- Error payload produced by the catch blocks of the install, setup_path
and update handlers: success:false plus the error message. -/
def errorPayload (msg : String) : Json :=
  Json.mkObj [("success", Json.bool false), ("error", Json.str msg)]

/-- The tail of the install handler after the short-circuit check
(lines 213-256): ensure homeDir/bin exists, run the install script, and
convert a failing script into a success:false payload via the local catch. -/
def installCore (w : World) (tr : List Eff) : HOut :=
  let binDir := w.homeDir ++ "/bin"
  let wd := if w.dirs binDir then (w, tr ++ [Eff.accessDir binDir])
            else (w.setDir binDir, tr ++ [Eff.accessDir binDir, Eff.mkdir binDir])
  match w.exec installCommand with
  | ExecResult.ok out err =>
    { text := jsonStringify (installSuccessPayload out err),
      world := wd.1, trace := wd.2 ++ [Eff.execCmd installCommand] }
  | ExecResult.err m =>
    { text := jsonStringify (errorPayload m),
      world := wd.1, trace := wd.2 ++ [Eff.execCmd installCommand] }

/-- Handler install_avalanche_cli (lines 188-257).  The unsupported-platform
throw on line 193 is caught by the handler local catch on line 244, so it
surfaces as a success:false payload with the thrown message. -/
def installAvalancheCLI (force : Bool) (w : World) : HOut :=
  if w.platform ≠ "linux" ∧ w.platform ≠ "darwin" then
    { text := jsonStringify (errorPayload
        "Avalanche CLI is not supported on this platform. Only Linux and macOS are supported."),
      world := w, trace := [] }
  else if force = false then
    match w.exec "which avalanche" with
    | ExecResult.ok _ _ =>
      { text := alreadyInstalledText, world := w, trace := [Eff.execCmd "which avalanche"] }
    | ExecResult.err _ => installCore w [Eff.execCmd "which avalanche"]
  else installCore w []

/-- Handler check_installation (lines 259-290): two sequential probes, the
second skipped when the first rejects. -/
def checkInstallation (w : World) : HOut :=
  match w.exec "avalanche --version" with
  | ExecResult.err _ =>
    { text := jsonStringify (Json.mkObj
        [("installed", Json.bool false),
         ("error", Json.str "Avalanche CLI not found in PATH"),
         ("suggestion", Json.str "Run the install_avalanche_cli tool to install it")]),
      world := w, trace := [Eff.execCmd "avalanche --version"] }
  | ExecResult.ok v _ =>
    match w.exec "which avalanche" with
    | ExecResult.err _ =>
      { text := jsonStringify (Json.mkObj
          [("installed", Json.bool false),
           ("error", Json.str "Avalanche CLI not found in PATH"),
           ("suggestion", Json.str "Run the install_avalanche_cli tool to install it")]),
        world := w, trace := [Eff.execCmd "avalanche --version", Eff.execCmd "which avalanche"] }
    | ExecResult.ok p _ =>
      { text := jsonStringify (Json.mkObj
          [("installed", Json.bool true),
           ("version", Json.str v.trim),
           ("path", Json.str p.trim)]),
        world := w, trace := [Eff.execCmd "avalanche --version", Eff.execCmd "which avalanche"] }

/-- The last path segment, as path.basename produces for the SHELL value. -/
def basename (p : String) : String := (p.splitOn "/").getLastD p

/-- The value of process.env.SHELL || bash: the SHELL variable unless it
is unset or empty (both falsy in the source). -/
def shellEnv (w : World) : String :=
  match w.envShell with
  | some e => if e = "" then "bash" else e
  | none => "bash"

/-- The shell used by setup_path (lines 296-299): the shell argument when
it is a nonempty string (the empty string is falsy in the source), else
the basename of SHELL, defaulting to bash. -/
def effShell (shellArg : Option String) (w : World) : String :=
  match shellArg with
  | some s => if s = "" then basename (shellEnv w) else s
  | none => basename (shellEnv w)

/-- The per-shell configuration file of setup_path (lines 301-305). -/
def shellConfigFile (s : String) : Option String :=
  if s = "bash" then some ".bashrc"
  else if s = "zsh" then some ".zshrc"
  else if s = "fish" then some ".config/fish/config.fish"
  else none

/-- Handler setup_path (lines 292-381). -/
def setupPath (shellArg : Option String) (w : World) : HOut :=
  let binPath := w.homeDir ++ "/bin"
  let shell := effShell shellArg w
  match shellConfigFile shell with
  | none =>
    { text := jsonStringify (Json.mkObj
        [("success", Json.bool false),
         ("error", Json.str ("Unsupported shell: " ++ shell)),
         ("supported_shells", Json.mkArr
           [Json.str "bash", Json.str "zsh", Json.str "fish"])]),
      world := w, trace := [] }
  | some cfg =>
    let configPath := w.homeDir ++ "/" ++ cfg
    let exportLine := if shell = "fish" then "set -gx PATH ~/bin $PATH"
                      else "export PATH=~/bin:$PATH"
    let configContent := (w.files configPath).getD ""
    if includes configContent "~/bin" || includes configContent binPath then
      { text := jsonStringify (Json.mkObj
          [("success", Json.bool true),
           ("message", Json.str "PATH already contains ~/bin directory"),
           ("current_config", Json.str configPath)]),
        world := w, trace := [Eff.readFile configPath] }
    else
      let block := "\n# Added by Avalanche CLI MCP Server\n" ++ exportLine ++ "\n"
      { text := jsonStringify (Json.mkObj
          [("success", Json.bool true),
           ("message", Json.str ("Added ~/bin to PATH in " ++ configPath)),
           ("instruction", Json.str ("Restart your terminal or run " ++ apos ++ "source "
             ++ configPath ++ apos ++ " to apply changes")),
           ("added_line", Json.str exportLine)]),
        world := w.setFile configPath (some (configContent ++ block)),
        trace := [Eff.readFile configPath, Eff.appendFile configPath block] }

/-- Static payload of get_installation_info (lines 383-421). -/
def installationInfoPayload : Json :=
  Json.mkObj
    [("title", Json.str "Avalanche CLI Installation Guide"),
     ("compatibility", Json.mkObj
       [("supported_os", Json.mkArr [Json.str "Linux", Json.str "macOS"]),
        ("unsupported_os", Json.mkArr [Json.str "Windows"])]),
     ("installation", Json.mkObj
       [("command", Json.str installCommand),
        ("install_location", Json.str "~/bin/avalanche"),
        ("description", Json.str "Downloads and installs the latest binary release")]),
     ("path_setup", Json.mkObj
       [("bash", Json.str "export PATH=~/bin:$PATH >> ~/.bashrc"),
        ("zsh", Json.str "export PATH=~/bin:$PATH >> ~/.zshrc"),
        ("fish", Json.str "set -gx PATH ~/bin $PATH >> ~/.config/fish/config.fish")]),
     ("verification", Json.mkObj
       [("command", Json.str "avalanche --version"),
        ("description", Json.str "Check installation and version")]),
     ("updating", Json.mkObj
       [("method", Json.str "Delete current binary and reinstall"),
        ("description", Json.str "No built-in update mechanism")]),
     ("source_build", Json.mkObj
       [("repository", Json.str "https://github.com/ava-labs/avalanche-cli"),
        ("build_script", Json.str "./scripts/build.sh"),
        ("output_binary", Json.str "./bin/avalanche")])]

/-- Handler get_installation_info: pure and static. -/
def getInstallationInfo (w : World) : HOut :=
  { text := jsonStringify installationInfoPayload, world := w, trace := [] }

/-- Handler update_avalanche_cli (lines 423-499). -/
def updateAvalancheCLI (w : World) : HOut :=
  let binPath := w.homeDir ++ "/bin/avalanche"
  match w.files binPath with
  | none =>
    { text := jsonStringify (Json.mkObj
        [("success", Json.bool false),
         ("error", Json.str "Avalanche CLI not found at ~/bin/avalanche"),
         ("suggestion", Json.str "Use install_avalanche_cli tool to install it first")]),
      world := w, trace := [Eff.accessFile binPath] }
  | some _ =>
    let currentVersion := match w.exec "avalanche --version" with
      | ExecResult.ok out _ => out.trim
      | ExecResult.err _ => "unknown"
    match w.exec installCommand with
    | ExecResult.err m =>
      { text := jsonStringify (errorPayload m),
        world := w.setFile binPath none,
        trace := [Eff.accessFile binPath, Eff.execCmd "avalanche --version",
          Eff.unlink binPath, Eff.execCmd installCommand] }
    | ExecResult.ok out err =>
      let newVersion := match w.exec "avalanche --version" with
        | ExecResult.ok o _ => o.trim
        | ExecResult.err _ => "unknown"
      { text := jsonStringify (Json.mkObj
          [("success", Json.bool true),
           ("message", Json.str "Avalanche CLI updated successfully"),
           ("previous_version", Json.str currentVersion),
           ("new_version", Json.str newVersion),
           ("stdout", Json.str out),
           ("stderr", Json.str err)]),
        world := w.setFile binPath none,
        trace := [Eff.accessFile binPath, Eff.execCmd "avalanche --version",
          Eff.unlink binPath, Eff.execCmd installCommand,
          Eff.execCmd "avalanche --version"] }

/-- The steps list of build_from_source (lines 509-515).  The source uses
the JavaScript truthiness test on the tag, so an empty string behaves like
an absent tag. -/
def buildSteps (tag : Option String) : List String :=
  ["Clone the repository: git clone https://github.com/ava-labs/avalanche-cli.git",
   "Navigate to the directory: cd avalanche-cli",
   (match tag with
    | some t =>
      if t = "" then "Checkout desired tag: git checkout <tag>"
      else "Checkout specific tag: git checkout " ++ t
    | none => "Checkout desired tag: git checkout <tag>"),
   "Build the binary: ./scripts/build.sh",
   "Binary will be available at: ./bin/avalanche"]

/-- The commands list of build_from_source (lines 516-521). -/
def buildCommands (tag : Option String) : List String :=
  ["git clone https://github.com/ava-labs/avalanche-cli.git",
   "cd avalanche-cli",
   (match tag with
    | some t =>
      if t = "" then "git checkout <desired-tag>"
      else "git checkout " ++ t
    | none => "git checkout <desired-tag>"),
   "./scripts/build.sh"]

/-- Payload of build_from_source (lines 501-531). -/
def buildFromSourcePayload (tag : Option String) : Json :=
  Json.mkObj
    [("title", Json.str "Building Avalanche CLI from Source"),
     ("repository", Json.str "https://github.com/ava-labs/avalanche-cli"),
     ("steps", Json.mkArr ((buildSteps tag).map Json.str)),
     ("commands", Json.mkArr ((buildCommands tag).map Json.str)),
     ("output", Json.mkObj
       [("binary_location", Json.str "./bin/avalanche"),
        ("description", Json.str ("The compiled binary will be named " ++ apos
          ++ "avalanche" ++ apos ++ " in the bin directory"))]),
     ("note", Json.str
       "Building from source allows you to use specific versions or contribute to development")]

/-- Handler build_from_source: pure. -/
def getBuildFromSourceInfo (tag : Option String) (w : World) : HOut :=
  { text := jsonStringify (buildFromSourcePayload tag), world := w, trace := [] }

/- ## Dispatcher -/

/-- The protocol error codes the dispatcher uses. -/
inductive ErrorCode where
  | methodNotFound
  | internalError
deriving DecidableEq

/-- The JSON-RPC number of each code, as in the protocol SDK. -/
def ErrorCode.num : ErrorCode → Int
  | .methodNotFound => -32601
  | .internalError => -32603

/-- A protocol error value.  code and msg are the constructor arguments of
the SDK McpError class. -/
structure McpError where
  code : ErrorCode
  msg : String
deriving DecidableEq

/-- The message property of a thrown McpError.  The SDK class extends
Error with the message MCP error CODE: MESSAGE, which is what the catch
block of the dispatcher reads back. -/
def McpError.message (e : McpError) : String :=
  "MCP error " ++ toString e.code.num ++ ": " ++ e.msg

/-- The arguments object of a call request.  Absent members are none. -/
structure Args where
  force : Option Bool
  shell : Option String
  tag : Option String

/-- The body of the try block of the CallTool dispatcher (lines 130-157):
route on the operation name, throwing a MethodNotFound McpError for an
unknown name. -/
def rawDispatch (name : String) (a : Args) (w : World) : Except McpError HOut :=
  if name = "check_compatibility" then .ok (checkCompatibility w)
  else if name = "install_avalanche_cli" then .ok (installAvalancheCLI (a.force.getD false) w)
  else if name = "check_installation" then .ok (checkInstallation w)
  else if name = "setup_path" then .ok (setupPath a.shell w)
  else if name = "get_installation_info" then .ok (getInstallationInfo w)
  else if name = "update_avalanche_cli" then .ok (updateAvalancheCLI w)
  else if name = "build_from_source" then .ok (getBuildFromSourceInfo a.tag w)
  else .error { code := ErrorCode.methodNotFound, msg := "Unknown tool: " ++ name }

/-- The full dispatcher (lines 126-162): the catch block wraps every error
thrown inside the try block, including the MethodNotFound error thrown by
the default branch, into a new McpError with the InternalError code and
the caught error message. -/
def dispatch (name : String) (a : Args) (w : World) : Except McpError HOut :=
  match rawDispatch name a w with
  | .ok r => .ok r
  | .error e => .error { code := ErrorCode.internalError, msg := e.message }

/- ## Invocations -/

/-- One handler invocation: the operation with its arguments and world. -/
inductive Invocation where
  | checkCompat (w : World)
  | install (force : Bool) (w : World)
  | checkInstall (w : World)
  | setup (shell : Option String) (w : World)
  | info (w : World)
  | update (w : World)
  | buildInfo (tag : Option String) (w : World)

/-- Run the invocation. -/
def invokeOut : Invocation → HOut
  | .checkCompat w => checkCompatibility w
  | .install f w => installAvalancheCLI f w
  | .checkInstall w => checkInstallation w
  | .setup s w => setupPath s w
  | .info w => getInstallationInfo w
  | .update w => updateAvalancheCLI w
  | .buildInfo t w => getBuildFromSourceInfo t w

/-- The response text of the invocation. -/
def invokeText (inv : Invocation) : String := (invokeOut inv).text

/-- The install short-circuit: force is false, the platform is supported,
and the which probe resolves the executable. -/
def isShortCircuit : Invocation → Prop
  | .install force w =>
      ¬ (w.platform ≠ "linux" ∧ w.platform ≠ "darwin") ∧ force = false ∧
        ∃ o e, w.exec "which avalanche" = ExecResult.ok o e
  | _ => False

/- ## Substring facts -/

theorem hasPre_append (p : List Char) : ∀ s t, hasPre p s = true → hasPre p (s ++ t) = true := by
  induction p with
  | nil => intro s t _; simp [hasPre]
  | cons a ps ih =>
    intro s t h
    cases s with
    | nil => simp [hasPre] at h
    | cons b bs =>
      simp only [List.cons_append, hasPre, Bool.and_eq_true] at h ⊢
      exact ⟨h.1, ih bs t h.2⟩

theorem hasSub_append_right (p : List Char) : ∀ a b, hasSub p b = true → hasSub p (a ++ b) = true := by
  intro a
  induction a with
  | nil => intro b h; simpa
  | cons c cs ih =>
    intro b h
    simp only [List.cons_append, hasSub, Bool.or_eq_true]
    exact Or.inr (ih b h)

/-- Appending on the left preserves the String.includes test. -/
theorem includes_append_right (s t pat : String) (h : includes t pat = true) :
    includes (s ++ t) pat = true := by
  simp only [includes, String.data_append]
  exact hasSub_append_right _ _ _ h

/- ## Demonstration worlds for concrete evaluations -/

/-- A linux world with the tool resolvable, an empty home and bash as the
login shell. -/
def wOk : World :=
  { platform := "linux", arch := "x64", homeDir := "/home/user",
    envShell := some "/bin/bash",
    exec := fun _ => ExecResult.ok "/home/user/bin/avalanche" "",
    files := fun _ => none, dirs := fun _ => false }

/-- The same world on win32. -/
def wWin : World := { wOk with platform := "win32" }

/-- A linux world holding the binary at the fixed path, where every
command, including the install script, fails. -/
def wBin : World :=
  { platform := "linux", arch := "arm64", homeDir := "/h", envShell := none,
    exec := fun _ => ExecResult.err "install script failed",
    files := fun p => if p = "/h/bin/avalanche" then some "binary" else none,
    dirs := fun _ => false }

/- ## Claims -/

/-- C4: check_compatibility is pure and total: for every platform and
architecture the payload carries compatible = (platform is linux or
darwin), that boolean is true exactly when the platform is linux or
darwin (so win32 and every other platform get false), the handler leaves
the world untouched with no effects, and the dispatcher always answers ok
for this operation. -/
theorem check_compatibility_iff (p a : String) (ar : Args) (w : World) :
    ((compatPayload p a).field "compatible"
        = some (Json.bool (p == "linux" || p == "darwin"))) ∧
    (((p == "linux" || p == "darwin") = true) ↔ (p = "linux" ∨ p = "darwin")) ∧
    checkCompatibility w
      = { text := jsonStringify (compatPayload w.platform w.arch),
          world := w, trace := [] } ∧
    dispatch "check_compatibility" ar w = Except.ok (checkCompatibility w) := by
  refine ⟨?_, ?_, rfl, rfl⟩
  · simp [compatPayload, Json.mkObj, JsonObj.ofList, Json.field, JsonObj.lookup]
  · simp

/-- C8: install on a platform outside linux and darwin returns the
structured success:false payload of the handler-local catch, leaves the
world untouched, performs no effects at all (in particular no directory
creation and no script execution), and the dispatcher still answers ok:
no exception escapes to the dispatcher. -/
theorem install_unsupported_platform (f : Bool) (a : Args) (w : World)
    (h1 : w.platform ≠ "linux") (h2 : w.platform ≠ "darwin") :
    installAvalancheCLI f w
      = { text := jsonStringify (errorPayload
            "Avalanche CLI is not supported on this platform. Only Linux and macOS are supported."),
          world := w, trace := [] } ∧
    dispatch "install_avalanche_cli" a w
      = Except.ok (installAvalancheCLI (a.force.getD false) w) := by
  constructor
  · unfold installAvalancheCLI
    rw [if_pos ⟨h1, h2⟩]
  · rfl

/-- C8 witness: a concrete win32 world. -/
theorem install_unsupported_platform_witness :
    wWin.platform ≠ "linux" ∧ wWin.platform ≠ "darwin" ∧
    (installAvalancheCLI false wWin
      = { text := jsonStringify (errorPayload
            "Avalanche CLI is not supported on this platform. Only Linux and macOS are supported."),
          world := wWin, trace := [] } ∧
    dispatch "install_avalanche_cli" { force := none, shell := none, tag := none } wWin
      = Except.ok (installAvalancheCLI false wWin)) :=
  ⟨by decide, by decide,
    install_unsupported_platform false _ wWin (by decide) (by decide)⟩

/-- C7: with force false, a supported platform and the executable already
resolvable, install short-circuits: it returns the plain advisory text,
leaves the world untouched, and its only effect is the which probe, so
neither the directory creation step nor the install script command runs. -/
theorem install_short_circuit_no_exec (w : World) (o e : String)
    (hp : w.platform = "linux" ∨ w.platform = "darwin")
    (hw : w.exec "which avalanche" = ExecResult.ok o e) :
    installAvalancheCLI false w
      = { text := alreadyInstalledText, world := w,
          trace := [Eff.execCmd "which avalanche"] } ∧
    Eff.execCmd installCommand ∉ (installAvalancheCLI false w).trace ∧
    (∀ p, Eff.mkdir p ∉ (installAvalancheCLI false w).trace) ∧
    (∀ p, Eff.accessDir p ∉ (installAvalancheCLI false w).trace) := by
  have hmain : installAvalancheCLI false w
      = { text := alreadyInstalledText, world := w,
          trace := [Eff.execCmd "which avalanche"] } := by
    unfold installAvalancheCLI
    rw [if_neg (by rcases hp with h | h <;> simp [h]), if_pos rfl, hw]
  refine ⟨hmain, ?_, ?_, ?_⟩
  · rw [hmain]; simp [installCommand]
  · intro p; rw [hmain]; simp
  · intro p; rw [hmain]; simp

/-- C7 witness: the concrete world wOk. -/
theorem install_short_circuit_no_exec_witness :
    (wOk.platform = "linux" ∨ wOk.platform = "darwin") ∧
    wOk.exec "which avalanche" = ExecResult.ok "/home/user/bin/avalanche" "" ∧
    (installAvalancheCLI false wOk
        = { text := alreadyInstalledText, world := wOk,
            trace := [Eff.execCmd "which avalanche"] } ∧
      Eff.execCmd installCommand ∉ (installAvalancheCLI false wOk).trace ∧
      (∀ p, Eff.mkdir p ∉ (installAvalancheCLI false wOk).trace) ∧
      (∀ p, Eff.accessDir p ∉ (installAvalancheCLI false wOk).trace)) :=
  ⟨Or.inl rfl, rfl, install_short_circuit_no_exec wOk _ _ (Or.inl rfl) rfl⟩

/-- C9: update with no binary at the fixed path returns the success:false
not-found payload with the suggestion to install first, leaves the world
untouched, and its only effect is the existence probe: no unlink and no
install script run. -/
theorem update_missing_binary (w : World)
    (h : w.files (w.homeDir ++ "/bin/avalanche") = none) :
    updateAvalancheCLI w
      = { text := jsonStringify (Json.mkObj
            [("success", Json.bool false),
             ("error", Json.str "Avalanche CLI not found at ~/bin/avalanche"),
             ("suggestion", Json.str "Use install_avalanche_cli tool to install it first")]),
          world := w, trace := [Eff.accessFile (w.homeDir ++ "/bin/avalanche")] } ∧
    (∀ p, Eff.unlink p ∉ (updateAvalancheCLI w).trace) ∧
    Eff.execCmd installCommand ∉ (updateAvalancheCLI w).trace := by
  have hmain : updateAvalancheCLI w
      = { text := jsonStringify (Json.mkObj
            [("success", Json.bool false),
             ("error", Json.str "Avalanche CLI not found at ~/bin/avalanche"),
             ("suggestion", Json.str "Use install_avalanche_cli tool to install it first")]),
          world := w, trace := [Eff.accessFile (w.homeDir ++ "/bin/avalanche")] } := by
    simp only [updateAvalancheCLI, h]
  refine ⟨hmain, ?_, ?_⟩
  · intro p; rw [hmain]; simp
  · rw [hmain]; simp

/-- C9 witness: the concrete world wOk, whose file system is empty. -/
theorem update_missing_binary_witness :
    wOk.files (wOk.homeDir ++ "/bin/avalanche") = none ∧
    (updateAvalancheCLI wOk
        = { text := jsonStringify (Json.mkObj
              [("success", Json.bool false),
               ("error", Json.str "Avalanche CLI not found at ~/bin/avalanche"),
               ("suggestion", Json.str "Use install_avalanche_cli tool to install it first")]),
            world := wOk, trace := [Eff.accessFile (wOk.homeDir ++ "/bin/avalanche")] } ∧
      (∀ p, Eff.unlink p ∉ (updateAvalancheCLI wOk).trace) ∧
      Eff.execCmd installCommand ∉ (updateAvalancheCLI wOk).trace) :=
  ⟨rfl, update_missing_binary wOk rfl⟩

/-- C10: update is not atomic.  When the binary exists at the fixed path
and the install script then fails, the handler answers with the
success:false payload of its catch block, but the binary has already been
unlinked and the error path does not restore it: the final world has no
file at the fixed path and the unlink effect is in the trace. -/
theorem update_not_atomic (w : World) (c m : String)
    (hf : w.files (w.homeDir ++ "/bin/avalanche") = some c)
    (he : w.exec installCommand = ExecResult.err m) :
    (updateAvalancheCLI w).text = jsonStringify (errorPayload m) ∧
    (updateAvalancheCLI w).world.files (w.homeDir ++ "/bin/avalanche") = none ∧
    Eff.unlink (w.homeDir ++ "/bin/avalanche") ∈ (updateAvalancheCLI w).trace := by
  have hmain : updateAvalancheCLI w
      = { text := jsonStringify (errorPayload m),
          world := w.setFile (w.homeDir ++ "/bin/avalanche") none,
          trace := [Eff.accessFile (w.homeDir ++ "/bin/avalanche"),
            Eff.execCmd "avalanche --version",
            Eff.unlink (w.homeDir ++ "/bin/avalanche"),
            Eff.execCmd installCommand] } := by
    simp only [updateAvalancheCLI, hf, he]
  rw [hmain]
  exact ⟨rfl, by simp [World.setFile], by simp⟩

/-- C10 witness: the concrete world wBin with a failing install script. -/
theorem update_not_atomic_witness :
    wBin.files (wBin.homeDir ++ "/bin/avalanche") = some "binary" ∧
    wBin.exec installCommand = ExecResult.err "install script failed" ∧
    ((updateAvalancheCLI wBin).text
        = jsonStringify (errorPayload "install script failed") ∧
      (updateAvalancheCLI wBin).world.files (wBin.homeDir ++ "/bin/avalanche") = none ∧
      Eff.unlink (wBin.homeDir ++ "/bin/avalanche") ∈ (updateAvalancheCLI wBin).trace) :=
  ⟨by decide, rfl, update_not_atomic wBin "binary" "install script failed" (by decide) rfl⟩

/-- C6: when the provided or derived shell name has no configuration file
entry, setup_path performs no effect at all (no file read, no write),
leaves the world untouched, and returns a success:false payload naming
the unsupported shell together with exactly the three supported names;
the dispatcher still answers ok, nothing is thrown. -/
theorem setup_path_unsupported_shell (sa : Option String) (a : Args) (w : World)
    (h : shellConfigFile (effShell sa w) = none) :
    setupPath sa w
      = { text := jsonStringify (Json.mkObj
            [("success", Json.bool false),
             ("error", Json.str ("Unsupported shell: " ++ effShell sa w)),
             ("supported_shells", Json.mkArr
               [Json.str "bash", Json.str "zsh", Json.str "fish"])]),
          world := w, trace := [] } ∧
    dispatch "setup_path" a w = Except.ok (setupPath a.shell w) := by
  refine ⟨?_, rfl⟩
  simp only [setupPath, h]

/-- C6 witness: the shell powershell in the concrete world wOk. -/
theorem setup_path_unsupported_shell_witness :
    shellConfigFile (effShell (some "powershell") wOk) = none ∧
    (setupPath (some "powershell") wOk
        = { text := jsonStringify (Json.mkObj
              [("success", Json.bool false),
               ("error", Json.str ("Unsupported shell: " ++ effShell (some "powershell") wOk)),
               ("supported_shells", Json.mkArr
                 [Json.str "bash", Json.str "zsh", Json.str "fish"])]),
            world := wOk, trace := [] } ∧
      dispatch "setup_path" { force := none, shell := some "powershell", tag := none } wOk
        = Except.ok (setupPath (some "powershell") wOk)) :=
  ⟨rfl, setup_path_unsupported_shell (some "powershell") _ wOk rfl⟩

/-- C1: for a request whose name is none of the seven registered
operations, the try block does throw a MethodNotFound McpError carrying
the unknown name, but the catch block of the same dispatcher wraps every
thrown error, so the error that actually surfaces has the generic
InternalError code; only its message still carries the unknown name. -/
theorem unknown_tool_internal_error (name : String) (a : Args) (w : World)
    (h : name ∉ ["check_compatibility", "install_avalanche_cli", "check_installation",
      "setup_path", "get_installation_info", "update_avalanche_cli", "build_from_source"]) :
    rawDispatch name a w
      = Except.error { code := ErrorCode.methodNotFound, msg := "Unknown tool: " ++ name } ∧
    dispatch name a w
      = Except.error
          { code := ErrorCode.internalError,
            msg := "MCP error -32601: " ++ ("Unknown tool: " ++ name) } := by
  simp only [List.mem_cons, List.not_mem_nil, or_false, not_or] at h
  obtain ⟨h1, h2, h3, h4, h5, h6, h7⟩ := h
  have hr : rawDispatch name a w
      = Except.error { code := ErrorCode.methodNotFound, msg := "Unknown tool: " ++ name } := by
    simp only [rawDispatch, if_neg h1, if_neg h2, if_neg h3, if_neg h4, if_neg h5,
      if_neg h6, if_neg h7]
  refine ⟨hr, ?_⟩
  simp only [dispatch, hr]
  rfl

/-- C1 witness: a concrete unregistered name. -/
theorem unknown_tool_internal_error_witness :
    "no_such_tool" ∉ (["check_compatibility", "install_avalanche_cli", "check_installation",
      "setup_path", "get_installation_info", "update_avalanche_cli", "build_from_source"]
        : List String) ∧
    (rawDispatch "no_such_tool" { force := none, shell := none, tag := none } wOk
        = Except.error
            { code := ErrorCode.methodNotFound,
              msg := "Unknown tool: " ++ "no_such_tool" } ∧
      dispatch "no_such_tool" { force := none, shell := none, tag := none } wOk
        = Except.error
            { code := ErrorCode.internalError,
              msg := "MCP error -32601: " ++ ("Unknown tool: " ++ "no_such_tool") }) :=
  ⟨by decide, unknown_tool_internal_error "no_such_tool" _ wOk (by decide)⟩

/-- C3 counterexample: with no tag supplied, the tag-referencing entry of
the steps list and the tag-referencing entry of the commands list do not
share one placeholder token: the steps use the token after the literal
prefix git checkout, and no single string completes both entries. -/
theorem build_placeholder_mismatch :
    (buildSteps none).getD 2 "" = "Checkout desired tag: git checkout <tag>" ∧
    (buildCommands none).getD 2 "" = "git checkout <desired-tag>" ∧
    ¬ ∃ p : String,
        (buildSteps none).getD 2 "" = "Checkout desired tag: git checkout " ++ p ∧
        (buildCommands none).getD 2 "" = "git checkout " ++ p := by
  refine ⟨rfl, rfl, ?_⟩
  rintro ⟨p, h1, h2⟩
  have h1' : "Checkout desired tag: git checkout " ++ "<tag>"
      = "Checkout desired tag: git checkout " ++ p := by
    rw [← h1]; rfl
  have hp : p = "<tag>" := by
    have hd := congrArg String.data h1'
    rw [String.data_append, String.data_append] at hd
    exact (String.ext (List.append_cancel_left hd)).symm
  subst hp
  have hne : ¬ ((buildCommands none).getD 2 "" = "git checkout " ++ "<tag>") := by decide
  exact hne h2

/-- C3 amended: with a nonempty tag the literal tag value is substituted
into the tag-referencing step and the tag-referencing command (and those
are the only entries mentioning a tag); with no tag, the steps list uses
the placeholder token in angle brackets spelled tag while the commands
list uses the differently spelled placeholder desired-tag, so each list is
internally consistent but the two lists do not share one placeholder. -/
theorem build_tag_substitution :
    (∀ t : String, ¬ t = "" →
      buildSteps (some t)
        = ["Clone the repository: git clone https://github.com/ava-labs/avalanche-cli.git",
           "Navigate to the directory: cd avalanche-cli",
           "Checkout specific tag: git checkout " ++ t,
           "Build the binary: ./scripts/build.sh",
           "Binary will be available at: ./bin/avalanche"] ∧
      buildCommands (some t)
        = ["git clone https://github.com/ava-labs/avalanche-cli.git",
           "cd avalanche-cli",
           "git checkout " ++ t,
           "./scripts/build.sh"]) ∧
    buildSteps none
      = ["Clone the repository: git clone https://github.com/ava-labs/avalanche-cli.git",
         "Navigate to the directory: cd avalanche-cli",
         "Checkout desired tag: git checkout <tag>",
         "Build the binary: ./scripts/build.sh",
         "Binary will be available at: ./bin/avalanche"] ∧
    buildCommands none
      = ["git clone https://github.com/ava-labs/avalanche-cli.git",
         "cd avalanche-cli",
         "git checkout <desired-tag>",
         "./scripts/build.sh"] :=
  ⟨fun t ht => by simp [buildSteps, buildCommands, ht], rfl, rfl⟩

/-- C3 witness: the example tag of the claim. -/
theorem build_tag_substitution_witness :
    ¬ "v1.2.3" = "" ∧
    (buildSteps (some "v1.2.3")
        = ["Clone the repository: git clone https://github.com/ava-labs/avalanche-cli.git",
           "Navigate to the directory: cd avalanche-cli",
           "Checkout specific tag: git checkout " ++ "v1.2.3",
           "Build the binary: ./scripts/build.sh",
           "Binary will be available at: ./bin/avalanche"] ∧
      buildCommands (some "v1.2.3")
        = ["git clone https://github.com/ava-labs/avalanche-cli.git",
           "cd avalanche-cli",
           "git checkout " ++ "v1.2.3",
           "./scripts/build.sh"]) :=
  ⟨by decide, build_tag_substitution.1 "v1.2.3" (by decide)⟩

/-- When the configuration file content already mentions the tilde-bin
token or the absolute bin path, setup_path only reads the file and writes
nothing. -/
theorem setupPath_skip (s cfg : String) (w : World)
    (hcfg : shellConfigFile s = some cfg) (hs0 : ¬ s = "")
    (hc : (includes ((w.files (w.homeDir ++ "/" ++ cfg)).getD "") "~/bin"
      || includes ((w.files (w.homeDir ++ "/" ++ cfg)).getD "") (w.homeDir ++ "/bin")) = true) :
    setupPath (some s) w
      = { text := jsonStringify (Json.mkObj
            [("success", Json.bool true),
             ("message", Json.str "PATH already contains ~/bin directory"),
             ("current_config", Json.str (w.homeDir ++ "/" ++ cfg))]),
          world := w, trace := [Eff.readFile (w.homeDir ++ "/" ++ cfg)] } := by
  have heff : effShell (some s) w = s := by simp [effShell, hs0]
  simp only [setupPath, heff, hcfg]
  rw [if_pos hc]

/-- When the configuration file content mentions neither token, setup_path
appends the comment-plus-export block to the file. -/
theorem setupPath_append (s cfg : String) (w : World)
    (hcfg : shellConfigFile s = some cfg) (hs0 : ¬ s = "")
    (hc : (includes ((w.files (w.homeDir ++ "/" ++ cfg)).getD "") "~/bin"
      || includes ((w.files (w.homeDir ++ "/" ++ cfg)).getD "") (w.homeDir ++ "/bin")) = false) :
    setupPath (some s) w
      = { text := jsonStringify (Json.mkObj
            [("success", Json.bool true),
             ("message", Json.str ("Added ~/bin to PATH in " ++ (w.homeDir ++ "/" ++ cfg))),
             ("instruction", Json.str ("Restart your terminal or run " ++ apos ++ "source "
               ++ (w.homeDir ++ "/" ++ cfg) ++ apos ++ " to apply changes")),
             ("added_line", Json.str (if s = "fish" then "set -gx PATH ~/bin $PATH"
               else "export PATH=~/bin:$PATH"))]),
          world := w.setFile (w.homeDir ++ "/" ++ cfg)
            (some ((w.files (w.homeDir ++ "/" ++ cfg)).getD ""
              ++ ("\n# Added by Avalanche CLI MCP Server\n"
                ++ (if s = "fish" then "set -gx PATH ~/bin $PATH"
                    else "export PATH=~/bin:$PATH") ++ "\n"))),
          trace := [Eff.readFile (w.homeDir ++ "/" ++ cfg),
            Eff.appendFile (w.homeDir ++ "/" ++ cfg)
              ("\n# Added by Avalanche CLI MCP Server\n"
                ++ (if s = "fish" then "set -gx PATH ~/bin $PATH"
                    else "export PATH=~/bin:$PATH") ++ "\n")] } := by
  have heff : effShell (some s) w = s := by simp [effShell, hs0]
  simp only [setupPath, heff, hcfg]
  rw [if_neg (by simp [hc])]

/-- The appended block always contains the tilde-bin token, for either
export line syntax. -/
theorem block_includes_bin (s : String) :
    includes ("\n# Added by Avalanche CLI MCP Server\n"
      ++ (if s = "fish" then "set -gx PATH ~/bin $PATH"
          else "export PATH=~/bin:$PATH") ++ "\n") "~/bin" = true := by
  by_cases hf : s = "fish"
  · rw [if_pos hf]; decide
  · rw [if_neg hf]; decide

/-- A second setup_path call on a world whose configuration file content
mentions the tilde-bin token skips the append and changes nothing. -/
theorem setupPath_after_append (s cfg nc : String) (w : World)
    (hcfg : shellConfigFile s = some cfg) (hs0 : ¬ s = "")
    (hinc : includes nc "~/bin" = true) :
    setupPath (some s) (w.setFile (w.homeDir ++ "/" ++ cfg) (some nc))
      = { text := jsonStringify (Json.mkObj
            [("success", Json.bool true),
             ("message", Json.str "PATH already contains ~/bin directory"),
             ("current_config", Json.str (w.homeDir ++ "/" ++ cfg))]),
          world := w.setFile (w.homeDir ++ "/" ++ cfg) (some nc),
          trace := [Eff.readFile (w.homeDir ++ "/" ++ cfg)] } := by
  have hcond : (includes (((w.setFile (w.homeDir ++ "/" ++ cfg) (some nc)).files
        ((w.setFile (w.homeDir ++ "/" ++ cfg) (some nc)).homeDir ++ "/" ++ cfg)).getD "")
          "~/bin"
      || includes (((w.setFile (w.homeDir ++ "/" ++ cfg) (some nc)).files
        ((w.setFile (w.homeDir ++ "/" ++ cfg) (some nc)).homeDir ++ "/" ++ cfg)).getD "")
          ((w.setFile (w.homeDir ++ "/" ++ cfg) (some nc)).homeDir ++ "/bin")) = true := by
    simp [World.setFile, hinc]
  exact setupPath_skip s cfg (w.setFile (w.homeDir ++ "/" ++ cfg) (some nc)) hcfg hs0 hcond

/-- C5: setup_path is idempotent on the configuration file for every
supported shell: running it twice leaves exactly the world of the first
run (in particular the same file content), the second run appends
nothing, and it skips because the content after the first run contains
the literal tilde-bin token or the expanded absolute bin path. -/
theorem setup_path_idempotent (s : String) (w : World)
    (hs : (shellConfigFile s).isSome = true) :
    (setupPath (some s) (setupPath (some s) w).world).world = (setupPath (some s) w).world ∧
    (∀ p t, Eff.appendFile p t ∉ (setupPath (some s) (setupPath (some s) w).world).trace) ∧
    (includes (((setupPath (some s) w).world.files
        (w.homeDir ++ "/" ++ ((shellConfigFile s).getD ""))).getD "") "~/bin"
      || includes (((setupPath (some s) w).world.files
        (w.homeDir ++ "/" ++ ((shellConfigFile s).getD ""))).getD "")
          (w.homeDir ++ "/bin")) = true := by
  obtain ⟨cfg, hcfg⟩ := Option.isSome_iff_exists.mp hs
  have hs0 : ¬ s = "" := by
    rintro rfl
    simp [shellConfigFile] at hcfg
  simp only [hcfg, Option.getD_some]
  by_cases hc : (includes ((w.files (w.homeDir ++ "/" ++ cfg)).getD "") "~/bin"
      || includes ((w.files (w.homeDir ++ "/" ++ cfg)).getD "") (w.homeDir ++ "/bin")) = true
  · have h1 := setupPath_skip s cfg w hcfg hs0 hc
    rw [h1]
    exact ⟨by rw [h1], by intro p t; rw [h1]; simp, hc⟩
  · have hcf : (includes ((w.files (w.homeDir ++ "/" ++ cfg)).getD "") "~/bin"
        || includes ((w.files (w.homeDir ++ "/" ++ cfg)).getD "")
            (w.homeDir ++ "/bin")) = false := by
      revert hc
      cases (includes ((w.files (w.homeDir ++ "/" ++ cfg)).getD "") "~/bin"
        || includes ((w.files (w.homeDir ++ "/" ++ cfg)).getD "") (w.homeDir ++ "/bin")) <;>
        simp
    have h1 := setupPath_append s cfg w hcfg hs0 hcf
    have h2 := setupPath_after_append s cfg
      ((w.files (w.homeDir ++ "/" ++ cfg)).getD ""
        ++ ("\n# Added by Avalanche CLI MCP Server\n"
          ++ (if s = "fish" then "set -gx PATH ~/bin $PATH"
              else "export PATH=~/bin:$PATH") ++ "\n")) w hcfg hs0
      (includes_append_right _ _ _ (block_includes_bin s))
    have e1 : (setupPath (some s) w).world
        = w.setFile (w.homeDir ++ "/" ++ cfg)
            (some ((w.files (w.homeDir ++ "/" ++ cfg)).getD ""
              ++ ("\n# Added by Avalanche CLI MCP Server\n"
                ++ (if s = "fish" then "set -gx PATH ~/bin $PATH"
                    else "export PATH=~/bin:$PATH") ++ "\n"))) := by
      rw [h1]
    refine ⟨?_, ?_, ?_⟩
    · rw [e1, h2]
    · intro p t
      rw [e1, h2]
      simp
    · rw [e1]
      simp [World.setFile, includes_append_right _ _ _ (block_includes_bin s)]

/-- C5 witness: shell bash in the concrete world wOk. -/
theorem setup_path_idempotent_witness :
    (shellConfigFile "bash").isSome = true ∧
    ((setupPath (some "bash") (setupPath (some "bash") wOk).world).world
        = (setupPath (some "bash") wOk).world ∧
      (∀ p t, Eff.appendFile p t
        ∉ (setupPath (some "bash") (setupPath (some "bash") wOk).world).trace) ∧
      (includes (((setupPath (some "bash") wOk).world.files
          (wOk.homeDir ++ "/" ++ ((shellConfigFile "bash").getD ""))).getD "") "~/bin"
        || includes (((setupPath (some "bash") wOk).world.files
          (wOk.homeDir ++ "/" ++ ((shellConfigFile "bash").getD ""))).getD "")
            (wOk.homeDir ++ "/bin")) = true) :=
  ⟨rfl, setup_path_idempotent "bash" wOk rfl⟩

/-- C2 amended: for every operation and every input the response text is
the JSON.stringify rendering of a payload value and deserializes back to
exactly that value — except for the install short-circuit (force false,
supported platform, tool already resolvable), whose response is a plain
text sentence rather than serialized structured data. -/
theorem handler_payload_round_trip (inv : Invocation) (h : ¬ isShortCircuit inv) :
    ∃ j : Json, invokeText inv = jsonStringify j ∧ parseJson (invokeText inv) = some j := by
  cases inv with
  | checkCompat w => exact ⟨_, rfl, renderParse _⟩
  | info w => exact ⟨_, rfl, renderParse _⟩
  | buildInfo t w => exact ⟨_, rfl, renderParse _⟩
  | checkInstall w =>
    simp only [invokeText, invokeOut, checkInstallation]
    cases h1 : w.exec "avalanche --version" with
    | err m => exact ⟨_, rfl, renderParse _⟩
    | ok v e =>
      cases h2 : w.exec "which avalanche" with
      | err m => exact ⟨_, rfl, renderParse _⟩
      | ok p e2 => exact ⟨_, rfl, renderParse _⟩
  | update w =>
    simp only [invokeText, invokeOut, updateAvalancheCLI]
    cases h1 : w.files (w.homeDir ++ "/bin/avalanche") with
    | none => exact ⟨_, rfl, renderParse _⟩
    | some c =>
      cases h2 : w.exec installCommand with
      | err m => exact ⟨_, rfl, renderParse _⟩
      | ok o e => exact ⟨_, rfl, renderParse _⟩
  | setup s w =>
    cases h1 : shellConfigFile (effShell s w) with
    | none =>
      simp only [invokeText, invokeOut, setupPath, h1]
      exact ⟨_, rfl, renderParse _⟩
    | some cfg =>
      by_cases h2 : (includes ((w.files (w.homeDir ++ "/" ++ cfg)).getD "") "~/bin"
          || includes ((w.files (w.homeDir ++ "/" ++ cfg)).getD "")
              (w.homeDir ++ "/bin")) = true
      · simp only [invokeText, invokeOut, setupPath, h1]
        rw [if_pos h2]
        exact ⟨_, rfl, renderParse _⟩
      · simp only [invokeText, invokeOut, setupPath, h1]
        rw [if_neg h2]
        exact ⟨_, rfl, renderParse _⟩
  | install f w =>
    simp only [invokeText, invokeOut, installAvalancheCLI]
    by_cases h1 : w.platform ≠ "linux" ∧ w.platform ≠ "darwin"
    · rw [if_pos h1]
      exact ⟨_, rfl, renderParse _⟩
    · rw [if_neg h1]
      cases f with
      | true =>
        rw [if_neg (by decide)]
        simp only [installCore]
        cases h3 : w.exec installCommand with
        | ok o e => exact ⟨_, rfl, renderParse _⟩
        | err m => exact ⟨_, rfl, renderParse _⟩
      | false =>
        rw [if_pos rfl]
        cases h2 : w.exec "which avalanche" with
        | ok o e => exact absurd ⟨h1, rfl, o, e, h2⟩ h
        | err m =>
          simp only [installCore]
          cases h3 : w.exec installCommand with
          | ok o e => exact ⟨_, rfl, renderParse _⟩
          | err m2 => exact ⟨_, rfl, renderParse _⟩

/-- C2 counterexample: the install short-circuit response, produced when
the tool is already resolvable and force is false on a compatible
platform, is the plain advisory sentence and is not valid JSON: the
reader rejects it. -/
theorem install_short_circuit_not_json :
    invokeText (Invocation.install false wOk) = alreadyInstalledText ∧
    parseJson (invokeText (Invocation.install false wOk)) = none := ⟨rfl, rfl⟩

/-- C2 witness: the compatibility payload of a concrete world round-trips. -/
theorem handler_payload_round_trip_witness :
    ¬ isShortCircuit (Invocation.checkCompat wOk) ∧
    ∃ j : Json, invokeText (Invocation.checkCompat wOk) = jsonStringify j ∧
      parseJson (invokeText (Invocation.checkCompat wOk)) = some j :=
  ⟨by simp [isShortCircuit], handler_payload_round_trip _ (by simp [isShortCircuit])⟩
